import Mathlib

/-!
Verification development for `src/submap.h`

A shallow embedding of the chunk type `submap`, its struct-of-arrays base
`maptile_soa` and the tile view `maptile`, followed by theorems about the
light counter, the feature setters and the uniformity flag.

Conventions of the embedding:

* A two-dimensional C array `a[sx][sy]` is a function `Int → Int → α`; the cell
  `a[p.x][p.y]` is `a p.x p.y`.  Only in-bounds indices have defined behaviour
  in the source, see `in_bounds`.
* `std::uint8_t` is a `Nat` below 256; every store of an `int` expression into
  such a cell goes through `u8`, reduction modulo `2^8`.
* `int` values that the source never drives to overflow in the modelled
  operations (`rad`, `field_count`, `temperature`, the loop variable `count`)
  are unbounded `Int`.
* Members of `submap` that none of the modelled operations reads or writes
  (`active_items`, `last_touched`, `spawns`, `vehicles`,
  `partial_constructions`, `comp`, `camp`) are left out of the state.
-/

namespace Submap

/-! ## Types declared outside `submap.h` -/

/-- Modelled from the spec: `point` (enums.h, absent), a pair of `int`
coordinates `x`, `y` local to the chunk. -/
structure point where
  x : Int
  y : Int
deriving DecidableEq

/-- Modelled from the spec: `ter_id` (type_id.h, absent), a terrain identifier
whose value is not validated by this code. -/
abbrev ter_id := Int

/-- Modelled from the spec: `furn_id` (type_id.h, absent), a furniture identifier. -/
abbrev furn_id := Int

/-- Modelled from the spec: `trap_id` (type_id.h, absent), a trap identifier. -/
abbrev trap_id := Int

/-- Modelled from the spec: `field_id` (field.h, absent), the kind of a field. -/
abbrev field_id := Nat

/-- Modelled from the spec: `time_duration` (calendar.h, absent), an age in turns. -/
abbrev time_duration := Int

/-- Modelled from the spec: `item` (item.h, absent).  The only member the chunk
uses is `is_emissive()`, "an item that emits light"; `uid` tells items apart. -/
structure item where
  is_emissive : Bool
  uid : Nat
deriving DecidableEq

/-- Modelled from the spec: the field container `field` (field.h, absent) with
its `add_field` operation, which reports whether a new field kind was
inserted.  The container is a parameter of the whole development: nothing is
assumed about how `add_field` computes its result. -/
structure field_api where
  field : Type
  empty : field
  add_field : field → field_id → Int → time_duration → Bool × field

/-- Truncation of an `int` to `std::uint8_t`, as done by `static_cast<uint8_t>`,
`++` and `--` on a `std::uint8_t` cell. -/
def u8 (z : Int) : Nat := (z % 256).toNat

/-- Store `v` into the cell `g[x][y]`. -/
def grid_set {α : Type} (g : Int → Int → α) (x y : Int) (v : α) : Int → Int → α :=
  fun a b => if a = x ∧ b = y then v else g a b

/-- Coordinates for which `a[p.x][p.y]` is inside an array `a[SEEX][SEEY]`.
The edge lengths `SEEX`, `SEEY` (game_constants.h, absent) are parameters. -/
def in_bounds (SEEX SEEY : Int) (p : point) : Prop :=
  0 ≤ p.x ∧ p.x < SEEX ∧ 0 ≤ p.y ∧ p.y < SEEY

instance (SEEX SEEY : Int) (p : point) : Decidable (in_bounds SEEX SEEY p) := by
  unfold in_bounds; infer_instance

/-! ## `maptile_soa` and `submap` -/

/-- The struct `maptile_soa<sx, sy>`: one array per feature.  The item
collection `colony<item>` is the list of its items in iteration order. -/
structure maptile_soa (F : field_api) where
  ter : Int → Int → ter_id
  frn : Int → Int → furn_id
  lum : Int → Int → Nat
  itm : Int → Int → List item
  fld : Int → Int → F.field
  trp : Int → Int → trap_id
  rad : Int → Int → Int

/-- The struct `submap::cosmetic_t`. -/
structure cosmetic_t where
  pos : point
  type : String
  str : String
deriving DecidableEq

/-- The class `submap`: the tile grid plus the chunk members used by the
inline operations. -/
structure submap (F : field_api) extends maptile_soa F where
  is_uniform : Bool
  cosmetics : List cosmetic_t
  field_count : Int
  temperature : Int

variable {F : field_api}

/-- The member `submap::get_trap`. -/
def submap.get_trap (s : submap F) (p : point) : trap_id :=
  s.trp p.x p.y

/-- The member `submap::set_trap`. -/
def submap.set_trap (s : submap F) (p : point) (trap : trap_id) : submap F :=
  let s1 := { s with is_uniform := false }
  { s1 with trp := grid_set s1.trp p.x p.y trap }

/-- The member `submap::get_furn`. -/
def submap.get_furn (s : submap F) (p : point) : furn_id :=
  s.frn p.x p.y

/-- The member `submap::set_furn`. -/
def submap.set_furn (s : submap F) (p : point) (furn : furn_id) : submap F :=
  let s1 := { s with is_uniform := false }
  { s1 with frn := grid_set s1.frn p.x p.y furn }

/-- The member `submap::get_ter`. -/
def submap.get_ter (s : submap F) (p : point) : ter_id :=
  s.ter p.x p.y

/-- The member `submap::set_ter`. -/
def submap.set_ter (s : submap F) (p : point) (terr : ter_id) : submap F :=
  let s1 := { s with is_uniform := false }
  { s1 with ter := grid_set s1.ter p.x p.y terr }

/-- The member `submap::get_radiation`. -/
def submap.get_radiation (s : submap F) (p : point) : Int :=
  s.rad p.x p.y

/-- The member `submap::set_radiation`. -/
def submap.set_radiation (s : submap F) (p : point) (radiation : Int) : submap F :=
  let s1 := { s with is_uniform := false }
  { s1 with rad := grid_set s1.rad p.x p.y radiation }

/-- The member `submap::update_lum_add`: the flag is cleared first, then the
counter is incremented when the item is emissive and the counter is below 255. -/
def submap.update_lum_add (s : submap F) (p : point) (i : item) : submap F :=
  let s1 := { s with is_uniform := false }
  if i.is_emissive && decide (s1.lum p.x p.y < 255) then
    { s1 with lum := grid_set s1.lum p.x p.y (u8 ((s1.lum p.x p.y : Int) + 1)) }
  else
    s1

/-- The loop of `submap::update_lum_rem` over `itm[p.x][p.y]`: `count` starts
at 0 and is incremented for every emissive item met. -/
def scan_emissive (items : List item) : Int :=
  items.foldl (fun count it => if it.is_emissive then count + 1 else count) 0

/-- The member `submap::update_lum_rem`. -/
def submap.update_lum_rem (s : submap F) (p : point) (i : item) : submap F :=
  let s1 := { s with is_uniform := false }
  if !i.is_emissive then
    s1
  else if decide (s1.lum p.x p.y ≠ 0) && decide (s1.lum p.x p.y < 255) then
    { s1 with lum := grid_set s1.lum p.x p.y (u8 ((s1.lum p.x p.y : Int) - 1)) }
  else
    let count := scan_emissive (s1.itm p.x p.y)
    if count ≤ 256 then
      { s1 with lum := grid_set s1.lum p.x p.y (u8 (count - 1)) }
    else
      s1

/-- The member `submap::insert_cosmetic`. -/
def submap.insert_cosmetic (s : submap F) (p : point) (type str : String) : submap F :=
  let ins : cosmetic_t := { pos := p, type := type, str := str }
  { s with cosmetics := s.cosmetics ++ [ins] }

/-- The member `submap::get_temperature`. -/
def submap.get_temperature (s : submap F) : Int :=
  s.temperature

/-- The member `submap::set_temperature`. -/
def submap.set_temperature (s : submap F) (new_temperature : Int) : submap F :=
  { s with temperature := new_temperature }

/-! ## `maptile` -/

/-- The struct `maptile`: the coordinates of the view.  The pointer `sm` is
the chunk state passed to every accessor. -/
structure maptile where
  x : Nat
  y : Nat
deriving DecidableEq

/-- The private member `maptile::pos`. -/
def maptile.pos (m : maptile) : point :=
  { x := (m.x : Int), y := (m.y : Int) }

/-- The member `maptile::get_trap`. -/
def maptile.get_trap (m : maptile) (sm : submap F) : trap_id :=
  sm.get_trap m.pos

/-- The member `maptile::get_furn`. -/
def maptile.get_furn (m : maptile) (sm : submap F) : furn_id :=
  sm.get_furn m.pos

/-- The member `maptile::get_ter`. -/
def maptile.get_ter (m : maptile) (sm : submap F) : ter_id :=
  sm.get_ter m.pos

/-- The member `maptile::get_field`. -/
def maptile.get_field (m : maptile) (sm : submap F) : F.field :=
  sm.fld (m.x : Int) (m.y : Int)

/-- The member `maptile::add_field`: the container's result with the chunk
after the call. -/
def maptile.add_field (m : maptile) (sm : submap F) (field_to_add : field_id)
    (new_density : Int) (new_age : time_duration) : Bool × submap F :=
  let r := F.add_field (sm.fld (m.x : Int) (m.y : Int)) field_to_add new_density new_age
  let ret := r.1
  let sm1 := { sm with fld := grid_set sm.fld (m.x : Int) (m.y : Int) r.2 }
  if ret then
    (ret, { sm1 with field_count := sm1.field_count + 1 })
  else
    (ret, sm1)

/-- The member `maptile::get_radiation`. -/
def maptile.get_radiation (m : maptile) (sm : submap F) : Int :=
  sm.get_radiation m.pos

/-- The member `maptile::get_item_count`. -/
def maptile.get_item_count (m : maptile) (sm : submap F) : Nat :=
  (sm.itm (m.x : Int) (m.y : Int)).length

/-- The member `maptile::get_uppermost_item`: the element before `cend()`;
`none` stands for the undefined call on an empty collection. -/
def maptile.get_uppermost_item (m : maptile) (sm : submap F) : Option item :=
  (sm.itm (m.x : Int) (m.y : Int)).getLast?

/-! ## Item traffic at one tile -/

/-- Modelled from the spec: insertion into `colony<item>` (colony.h, absent),
"an unordered collection of items (insertion order not guaranteed
preserved)": the new item lands at an arbitrary position `k` of the iteration
order (at the end when `k` is past it). -/
def colony_insert (c : List item) (k : Nat) (i : item) : List item :=
  c.take k ++ i :: c.drop k

/-- Modelled from the spec: erasure from `colony<item>` (colony.h, absent) of
the element at position `k` of the iteration order; the other elements keep
their relative order. -/
def colony_erase (c : List item) (k : Nat) : List item :=
  c.take k ++ c.drop (k + 1)

/-- One step of item traffic at a tile, as the claims describe the callers of
`update_lum_add` and `update_lum_rem`. -/
inductive item_step where
  | insert (k : Nat) (i : item)
  | remove (k : Nat)
deriving DecidableEq

/-- Effect of a step at `p`.  An insertion puts the item into `itm[p]` and
calls `update_lum_add`; a removal calls `update_lum_rem` on the item at
position `k` while it is still in `itm[p]` and then erases it.  A removal at
a position that holds no item is not a step of the protocol and leaves the
state alone, see `item_step.legal`. -/
def item_step.apply (p : point) (s : submap F) : item_step → submap F
  | .insert k i =>
    let s1 := { s with itm := grid_set s.itm p.x p.y (colony_insert (s.itm p.x p.y) k i) }
    s1.update_lum_add p i
  | .remove k =>
    match (s.itm p.x p.y)[k]? with
    | some i =>
      let s1 := s.update_lum_rem p i
      { s1 with itm := grid_set s1.itm p.x p.y (colony_erase (s1.itm p.x p.y) k) }
    | none => s

/-- A removal is legal when the position names an item still in `itm[p]`. -/
def item_step.legal (p : point) (s : submap F) : item_step → Bool
  | .insert _ _ => true
  | .remove k => decide (k < (s.itm p.x p.y).length)

/-- The state after a sequence of steps at `p`. -/
def run_steps (p : point) (s : submap F) (steps : List item_step) : submap F :=
  steps.foldl (item_step.apply p) s

/-- Every step of the sequence is legal in the state it is applied to. -/
def legal_steps (p : point) (s : submap F) : List item_step → Bool
  | [] => true
  | st :: rest => st.legal p s && legal_steps p (st.apply p s) rest

/-- Number of emissive items currently in `itm[p]`. -/
def emitters (s : submap F) (p : point) : Nat :=
  (s.itm p.x p.y).countP (fun it => it.is_emissive)

/-- The counter `lum[p]` equals the number of emitters in `itm[p]`, capped at 255. -/
def sat_inv (s : submap F) (p : point) : Prop :=
  s.lum p.x p.y = min (emitters s p) 255

/-- The step inserts an emissive item. -/
def item_step.is_emissive_insert : item_step → Bool
  | .insert _ i => i.is_emissive
  | .remove _ => false

/-- The step is a removal. -/
def item_step.is_remove : item_step → Bool
  | .insert _ _ => false
  | .remove _ => true

/-! ## Operations as data -/

/-- The read accessors of the chunk and of the tile view: the `const` members
of `submap` and `maptile`.  A `const` member cannot assign to the chunk, so
each of them leaves the state as it is; those whose value the claims use are
modelled above as functions of the state.  `maptile::find_field` is not
`const` (it hands out a pointer into the field) and is not listed. -/
inductive read_op where
  | get_trap (p : point)
  | get_furn (p : point)
  | get_ter (p : point)
  | get_radiation (p : point)
  | get_temperature
  | has_graffiti (p : point)
  | get_graffiti (p : point)
  | has_signage (p : point)
  | get_signage (p : point)
  | tile_get_trap (m : maptile)
  | tile_get_furn (m : maptile)
  | tile_get_ter (m : maptile)
  | tile_get_trap_t (m : maptile)
  | tile_get_furn_t (m : maptile)
  | tile_get_ter_t (m : maptile)
  | tile_get_field (m : maptile)
  | tile_get_radiation (m : maptile)
  | tile_has_graffiti (m : maptile)
  | tile_get_graffiti (m : maptile)
  | tile_has_signage (m : maptile)
  | tile_get_signage (m : maptile)
  | tile_get_item_count (m : maptile)
  | tile_get_uppermost_item (m : maptile)
deriving DecidableEq

/-- The inline mutating operations of `submap` and `maptile` with their
arguments, and the read accessors. -/
inductive chunk_op where
  | set_ter (p : point) (terr : ter_id)
  | set_furn (p : point) (furn : furn_id)
  | set_trap (p : point) (trap : trap_id)
  | set_radiation (p : point) (radiation : Int)
  | update_lum_add (p : point) (i : item)
  | update_lum_rem (p : point) (i : item)
  | insert_cosmetic (p : point) (type str : String)
  | set_temperature (new_temperature : Int)
  | add_field (m : maptile) (field_to_add : field_id) (new_density : Int) (new_age : time_duration)
  | read (r : read_op)
deriving DecidableEq

/-- The chunk state after an operation. -/
def chunk_op.exec (s : submap F) : chunk_op → submap F
  | .set_ter p terr => s.set_ter p terr
  | .set_furn p furn => s.set_furn p furn
  | .set_trap p trap => s.set_trap p trap
  | .set_radiation p radiation => s.set_radiation p radiation
  | .update_lum_add p i => s.update_lum_add p i
  | .update_lum_rem p i => s.update_lum_rem p i
  | .insert_cosmetic p type str => s.insert_cosmetic p type str
  | .set_temperature t => s.set_temperature t
  | .add_field m k d a => (m.add_field s k d a).2
  | .read _ => s

/-- The chunk state after a sequence of operations. -/
def run_ops (s : submap F) (ops : List chunk_op) : submap F :=
  ops.foldl chunk_op.exec s

/-- Modelled from the spec: the constructor `submap::submap()` (submap.cpp,
absent).  "uniformity flag: starts true"; every feature read of an untouched
coordinate "returns the type's default value"; `field_count` and
`temperature` carry their in-class initialisers `0`. -/
def submap_new (F : field_api) : submap F where
  ter := fun _ _ => 0
  frn := fun _ _ => 0
  lum := fun _ _ => 0
  itm := fun _ _ => []
  fld := fun _ _ => F.empty
  trp := fun _ _ => 0
  rad := fun _ _ => 0
  is_uniform := true
  cosmetics := []
  field_count := 0
  temperature := 0

/-- The cell at `(x, y)` is in its constructed default state. -/
def cell_default (s : submap F) (x y : Int) : Prop :=
  s.ter x y = 0 ∧ s.frn x y = 0 ∧ s.lum x y = 0 ∧ s.itm x y = [] ∧
    s.fld x y = F.empty ∧ s.trp x y = 0 ∧ s.rad x y = 0

/-- Modelled from the spec: a field container (field.h, absent) holding "a
small fixed set of overlapping field kinds with density/age per kind".
`add_field` inserts a kind that is not yet present and reports `true`, a
"successful field-kind insertion"; for a kind already present it reports
`false`. -/
def kind_field : field_api where
  field := List (field_id × Int × time_duration)
  empty := []
  add_field := fun f k d a =>
    if f.any (fun e => e.1 == k) then (false, f) else (true, f ++ [(k, d, a)])

/-- A chunk that differs from a new one at the tile `(0, 0)` only: its counter
is `lum0` and its item collection is `items`. -/
def chunk_with (lum0 : Nat) (items : List item) : submap kind_field :=
  { submap_new kind_field with
    lum := grid_set (fun _ _ => 0) 0 0 lum0
    itm := grid_set (fun _ _ => []) 0 0 items }

/-- Every item in `itm[p]` is emissive. -/
def all_emissive (s : submap F) (p : point) : Prop :=
  ∀ it ∈ s.itm p.x p.y, it.is_emissive = true

/-- The parts of the chunk outside the four feature arrays with a setter
(`lum`, `itm`, `fld`, `cosmetics`, `field_count`, `temperature`) are the same
in `s1` as in `s`. -/
def same_rest (s s1 : submap F) : Prop :=
  s1.lum = s.lum ∧ s1.itm = s.itm ∧ s1.fld = s.fld ∧ s1.cosmetics = s.cosmetics ∧
    s1.field_count = s.field_count ∧ s1.temperature = s.temperature

/-- The uniformity invariant: a chunk flagged uniform has every cell in its
constructed default state. -/
def uniform_inv (s : submap F) : Prop :=
  s.is_uniform = true → ∀ x y, cell_default s x y

/-- The operation is `maptile::add_field`. -/
def chunk_op.is_add_field : chunk_op → Bool
  | .add_field _ _ _ _ => true
  | _ => false

/-- The arguments of one call of `maptile::add_field`: the tile view and the
three parameters. -/
structure field_call where
  m : maptile
  field_to_add : field_id
  new_density : Int
  new_age : time_duration
deriving DecidableEq

/-- The call as an operation of `chunk_op`. -/
def field_call.op (c : field_call) : chunk_op :=
  .add_field c.m c.field_to_add c.new_density c.new_age

/-- A sequence of `maptile::add_field` calls made one after the other: the
values they return, in order, and the chunk after the last one. -/
def add_field_results (s : submap F) : List field_call → List Bool × submap F
  | [] => ([], s)
  | c :: rest =>
    let r := c.m.add_field s c.field_to_add c.new_density c.new_age
    let rr := add_field_results r.2 rest
    (r.1 :: rr.1, rr.2)

/-- The light-accounting frame: `s1` differs from `s` at most in `lum[p]` and
in the uniformity flag. -/
def lum_frame (s s1 : submap F) (p : point) : Prop :=
  (∀ x y, ¬ (x = p.x ∧ y = p.y) → s1.lum x y = s.lum x y) ∧
    s1.ter = s.ter ∧ s1.frn = s.frn ∧ s1.itm = s.itm ∧ s1.fld = s.fld ∧
    s1.trp = s.trp ∧ s1.rad = s.rad ∧ s1.cosmetics = s.cosmetics ∧
    s1.field_count = s.field_count ∧ s1.temperature = s.temperature

/-! ## Insertion order, for `get_uppermost_item` -/

/-- A step on the collection of a tile in which every item carries the number
of the step that inserted it.  The items move as in `item_step.apply`. -/
def stamped_apply (st : List (item × Nat)) (t : Nat) : item_step → List (item × Nat)
  | .insert k i => st.take k ++ (i, t) :: st.drop k
  | .remove k => st.take k ++ st.drop (k + 1)

/-- The stamped collection after a sequence of steps, the first of which has
number `t`. -/
def stamped_run (st : List (item × Nat)) (t : Nat) : List item_step → List (item × Nat)
  | [] => st
  | step :: rest => stamped_run (stamped_apply st t step) (t + 1) rest

/-- The entry inserted last among those present: the one with the greatest
step number. -/
def most_recent : List (item × Nat) → Option (item × Nat)
  | [] => none
  | e :: rest =>
    match most_recent rest with
    | none => some e
    | some f => if f.2 < e.2 then some e else some f

/-- The item inserted last among those still present after `steps` on an
empty tile. -/
def most_recent_item (steps : List item_step) : Option item :=
  (most_recent (stamped_run [] 0 steps)).map Prod.fst

/-- Every insertion of the sequence places its item at the end of the
iteration order of `itm[p]`. -/
def inserts_at_end (p : point) (s : submap F) : List item_step → Bool
  | [] => true
  | .insert k i :: rest =>
    decide ((s.itm p.x p.y).length ≤ k) && inserts_at_end p ((item_step.insert k i).apply p s) rest
  | .remove k :: rest => inserts_at_end p ((item_step.remove k).apply p s) rest

/-! ## Basic facts about the helpers -/

theorem grid_set_same {α : Type} (g : Int → Int → α) (x y : Int) (v : α) :
    grid_set g x y v x y = v := by
  simp [grid_set]

theorem grid_set_other {α : Type} (g : Int → Int → α) (x y a b : Int) (v : α)
    (h : ¬ (a = x ∧ b = y)) : grid_set g x y v a b = g a b := by
  simp [grid_set, h]

theorem u8_succ (n : Nat) (h : n < 255) : u8 ((n : Int) + 1) = n + 1 := by
  unfold u8
  omega

theorem u8_pred (n : Nat) (h0 : n ≠ 0) (h : n < 256) : u8 ((n : Int) - 1) = n - 1 := by
  unfold u8
  omega

theorem u8_neg_one : u8 (0 - 1) = 255 := by
  decide

theorem scan_emissive_acc (items : List item) (c : Int) :
    items.foldl (fun count it => if it.is_emissive then count + 1 else count) c
      = c + (items.countP (fun it => it.is_emissive) : Nat) := by
  induction items generalizing c with
  | nil => simp
  | cons it rest ih =>
    rw [List.foldl_cons, ih, List.countP_cons]
    cases it.is_emissive <;> simp
    omega

theorem scan_emissive_eq_countP (items : List item) :
    scan_emissive items = (items.countP (fun it => it.is_emissive) : Nat) := by
  unfold scan_emissive
  rw [scan_emissive_acc]
  simp

theorem scan_emissive_eq_emitters (s : submap F) (p : point) :
    scan_emissive (s.itm p.x p.y) = (emitters s p : Int) := by
  unfold emitters
  exact scan_emissive_eq_countP _

/-- The counter after `update_lum_add`, case by case. -/
theorem lum_update_lum_add (s : submap F) (p : point) (i : item) :
    (s.update_lum_add p i).lum p.x p.y =
      if i.is_emissive = true ∧ s.lum p.x p.y < 255 then s.lum p.x p.y + 1
      else s.lum p.x p.y := by
  unfold submap.update_lum_add
  by_cases h : i.is_emissive = true ∧ s.lum p.x p.y < 255
  · simp [h, grid_set_same, u8_succ _ h.2]
  · rw [if_neg h]
    have h2 : (i.is_emissive && decide (s.lum p.x p.y < 255)) = false := by
      cases hi : i.is_emissive <;> simp_all
    simp [h2]

/-- The counter after `update_lum_rem`, case by case, in terms of the loop. -/
theorem lum_update_lum_rem (s : submap F) (p : point) (i : item) :
    (s.update_lum_rem p i).lum p.x p.y =
      if i.is_emissive = false then s.lum p.x p.y
      else if s.lum p.x p.y ≠ 0 ∧ s.lum p.x p.y < 255 then u8 ((s.lum p.x p.y : Int) - 1)
      else if scan_emissive (s.itm p.x p.y) ≤ 256 then u8 (scan_emissive (s.itm p.x p.y) - 1)
      else s.lum p.x p.y := by
  unfold submap.update_lum_rem
  cases hi : i.is_emissive
  · simp
  · by_cases h : s.lum p.x p.y ≠ 0 ∧ s.lum p.x p.y < 255
    · simp [h, grid_set_same]
    · by_cases hc : scan_emissive (s.itm p.x p.y) ≤ 256
      · have h2 : (decide (s.lum p.x p.y ≠ 0) && decide (s.lum p.x p.y < 255)) = false := by
          by_contra hcon
          simp at hcon
          exact h ⟨hcon.1, hcon.2⟩
        simp only [h2, hc, h]
        simp [grid_set_same]
      · have h2 : (decide (s.lum p.x p.y ≠ 0) && decide (s.lum p.x p.y < 255)) = false := by
          by_contra hcon
          simp at hcon
          exact h ⟨hcon.1, hcon.2⟩
        simp only [h2, hc, h]
        simp

/-- Neither light-accounting operation touches the item collections. -/
theorem itm_update_lum_add (s : submap F) (p : point) (i : item) :
    (s.update_lum_add p i).itm = s.itm := by
  unfold submap.update_lum_add
  dsimp only
  split <;> rfl

theorem itm_update_lum_rem (s : submap F) (p : point) (i : item) :
    (s.update_lum_rem p i).itm = s.itm := by
  unfold submap.update_lum_rem
  dsimp only
  split
  · rfl
  · split
    · rfl
    · split <;> rfl

/-! ## The counter along item traffic -/

theorem countP_colony_insert (c : List item) (k : Nat) (i : item) :
    (colony_insert c k i).countP (fun it => it.is_emissive)
      = c.countP (fun it => it.is_emissive) + (if i.is_emissive then 1 else 0) := by
  unfold colony_insert
  have h := congrArg (List.countP (fun it : item => it.is_emissive)) (List.take_append_drop k c)
  rw [List.countP_append] at h
  rw [List.countP_append, List.countP_cons]
  omega

theorem countP_colony_erase (items : List item) (k : Nat) (i : item)
    (h : items[k]? = some i) :
    (colony_erase items k).countP (fun it => it.is_emissive) + (if i.is_emissive then 1 else 0)
      = items.countP (fun it => it.is_emissive) := by
  unfold colony_erase
  obtain ⟨hk, hget⟩ := List.getElem?_eq_some_iff.mp h
  have hd : items.drop k = i :: items.drop (k + 1) := by
    rw [← hget]
    exact List.drop_eq_getElem_cons hk
  have h2 := congrArg (List.countP (fun it : item => it.is_emissive))
    (List.take_append_drop k items)
  rw [List.countP_append, hd, List.countP_cons] at h2
  rw [List.countP_append]
  omega

theorem emitters_apply_insert (s : submap F) (p : point) (k : Nat) (i : item) :
    emitters ((item_step.insert k i).apply p s) p
      = emitters s p + (if i.is_emissive then 1 else 0) := by
  unfold emitters item_step.apply
  dsimp only
  rw [itm_update_lum_add]
  dsimp only
  rw [grid_set_same, countP_colony_insert]

theorem lum_apply_insert (s : submap F) (p : point) (k : Nat) (i : item) :
    ((item_step.insert k i).apply p s).lum p.x p.y
      = if i.is_emissive = true ∧ s.lum p.x p.y < 255 then s.lum p.x p.y + 1
        else s.lum p.x p.y := by
  unfold item_step.apply
  dsimp only
  rw [lum_update_lum_add]

theorem emitters_apply_remove (s : submap F) (p : point) (k : Nat) (i : item)
    (h : (s.itm p.x p.y)[k]? = some i) :
    emitters ((item_step.remove k).apply p s) p + (if i.is_emissive then 1 else 0)
      = emitters s p := by
  unfold emitters item_step.apply
  simp only [h]
  rw [grid_set_same, itm_update_lum_rem]
  exact countP_colony_erase _ k i h

theorem lum_apply_remove (s : submap F) (p : point) (k : Nat) (i : item)
    (h : (s.itm p.x p.y)[k]? = some i) :
    ((item_step.remove k).apply p s).lum p.x p.y = (s.update_lum_rem p i).lum p.x p.y := by
  unfold item_step.apply
  simp only [h]

/-- A legal step keeps the counter equal to the capped number of emitters. -/
theorem sat_inv_step (s : submap F) (p : point) (st : item_step)
    (hinv : sat_inv s p) (hlegal : st.legal p s = true) : sat_inv (st.apply p s) p := by
  unfold sat_inv at *
  cases st with
  | insert k i =>
    rw [lum_apply_insert, emitters_apply_insert]
    cases hi : i.is_emissive
    · simp [hinv]
    · by_cases hl : s.lum p.x p.y < 255
      · simp [hl]
        omega
      · simp [hl]
        omega
  | remove k =>
    have hk : k < (s.itm p.x p.y).length := by
      simpa [item_step.legal] using hlegal
    have hget : (s.itm p.x p.y)[k]? = some ((s.itm p.x p.y)[k]) := List.getElem?_eq_getElem hk
    have he := emitters_apply_remove s p k _ hget
    rw [lum_apply_remove s p k _ hget, lum_update_lum_rem, scan_emissive_eq_emitters]
    cases hi : ((s.itm p.x p.y)[k]).is_emissive
    · rw [hi] at he
      simp at he
      simp [hinv, he]
    · rw [hi] at he
      simp only [if_true] at he
      simp only [Bool.true_eq_false, if_false]
      by_cases h1 : s.lum p.x p.y ≠ 0 ∧ s.lum p.x p.y < 255
      · rw [if_pos h1, u8_pred _ h1.1 (by omega)]
        omega
      · rw [if_neg h1]
        by_cases h2 : (emitters s p : Int) ≤ 256
        · rw [if_pos h2]
          have h3 : ((emitters s p : Int) - 1) = ((emitters s p - 1 : Nat) : Int) := by omega
          rw [h3]
          unfold u8
          omega
        · rw [if_neg h2]
          omega

theorem sat_inv_run (p : point) (steps : List item_step) (s : submap F)
    (hinv : sat_inv s p) (hlegal : legal_steps p s steps = true) :
    sat_inv (run_steps p s steps) p := by
  induction steps generalizing s with
  | nil => simpa [run_steps] using hinv
  | cons st rest ih =>
    simp only [legal_steps, Bool.and_eq_true] at hlegal
    have h := ih (st.apply p s) (sat_inv_step s p st hinv hlegal.1) hlegal.2
    simpa [run_steps] using h

theorem legal_steps_take (p : point) (steps : List item_step) (s : submap F) (n : Nat)
    (hlegal : legal_steps p s steps = true) : legal_steps p s (steps.take n) = true := by
  induction steps generalizing s n with
  | nil => simp [legal_steps]
  | cons st rest ih =>
    cases n with
    | zero => simp [legal_steps]
    | succ m =>
      simp only [legal_steps, Bool.and_eq_true, List.take_succ_cons] at hlegal ⊢
      exact ⟨hlegal.1, ih _ m hlegal.2⟩

theorem sat_inv_start (s : submap F) (p : point) (hitm : s.itm p.x p.y = [])
    (hlum : s.lum p.x p.y = 0) : sat_inv s p := by
  unfold sat_inv emitters
  rw [hitm, hlum]
  simp

/-! ## Tiles that hold emissive items only -/

theorem length_colony_insert (items : List item) (k : Nat) (i : item) :
    (colony_insert items k i).length = items.length + 1 := by
  unfold colony_insert
  simp only [List.length_append, List.length_cons, List.length_take, List.length_drop]
  omega

theorem length_colony_erase (items : List item) (k : Nat) (hk : k < items.length) :
    (colony_erase items k).length + 1 = items.length := by
  unfold colony_erase
  simp only [List.length_append, List.length_take, List.length_drop]
  omega

theorem mem_colony_insert (items : List item) (k : Nat) (i it : item)
    (h : it ∈ colony_insert items k i) : it = i ∨ it ∈ items := by
  unfold colony_insert at h
  rcases List.mem_append.mp h with h1 | h1
  · exact Or.inr (List.mem_of_mem_take h1)
  · rcases List.mem_cons.mp h1 with h2 | h2
    · exact Or.inl h2
    · exact Or.inr (List.mem_of_mem_drop h2)

theorem mem_colony_erase (items : List item) (k : Nat) (it : item)
    (h : it ∈ colony_erase items k) : it ∈ items := by
  unfold colony_erase at h
  rcases List.mem_append.mp h with h1 | h1
  · exact List.mem_of_mem_take h1
  · exact List.mem_of_mem_drop h1

theorem itm_apply_insert (s : submap F) (p : point) (k : Nat) (i : item) :
    ((item_step.insert k i).apply p s).itm p.x p.y = colony_insert (s.itm p.x p.y) k i := by
  unfold item_step.apply
  dsimp only
  rw [itm_update_lum_add]
  dsimp only
  rw [grid_set_same]

theorem itm_apply_remove (s : submap F) (p : point) (k : Nat)
    (hk : k < (s.itm p.x p.y).length) :
    ((item_step.remove k).apply p s).itm p.x p.y = colony_erase (s.itm p.x p.y) k := by
  unfold item_step.apply
  simp only [List.getElem?_eq_getElem hk]
  rw [grid_set_same, itm_update_lum_rem]

theorem emitters_eq_length (s : submap F) (p : point) (h : all_emissive s p) :
    emitters s p = (s.itm p.x p.y).length := by
  unfold emitters
  exact List.countP_eq_length.mpr h

/-- Emissive insertions into a tile of emissive items keep it so and add one
item each. -/
theorem run_emissive_inserts (p : point) (ins : List item_step) (s : submap F)
    (hall : all_emissive s p) (hem : ins.all item_step.is_emissive_insert = true) :
    all_emissive (run_steps p s ins) p ∧
      ((run_steps p s ins).itm p.x p.y).length = (s.itm p.x p.y).length + ins.length := by
  induction ins generalizing s with
  | nil => exact ⟨by simpa [run_steps] using hall, by simp [run_steps]⟩
  | cons st rest ih =>
    simp only [List.all_cons, Bool.and_eq_true] at hem
    cases st with
    | remove k => simp [item_step.is_emissive_insert] at hem
    | insert k i =>
      have hi : i.is_emissive = true := by simpa [item_step.is_emissive_insert] using hem.1
      have hall1 : all_emissive ((item_step.insert k i).apply p s) p := by
        intro it hit
        rw [itm_apply_insert] at hit
        rcases mem_colony_insert _ k i it hit with h1 | h1
        · rw [h1]; exact hi
        · exact hall it h1
      have h := ih _ hall1 hem.2
      have hlen := congrArg List.length (itm_apply_insert s p k i)
      rw [length_colony_insert] at hlen
      refine ⟨by simpa [run_steps] using h.1, ?_⟩
      have h2 := h.2
      simp only [run_steps, List.foldl_cons, List.length_cons] at h2 ⊢
      omega

/-- Legal removals from a tile of emissive items keep it so and take one item
each. -/
theorem run_removes (p : point) (rems : List item_step) (s : submap F)
    (hall : all_emissive s p) (hrem : rems.all item_step.is_remove = true)
    (hlegal : legal_steps p s rems = true) :
    all_emissive (run_steps p s rems) p ∧
      ((run_steps p s rems).itm p.x p.y).length + rems.length = (s.itm p.x p.y).length := by
  induction rems generalizing s with
  | nil => exact ⟨by simpa [run_steps] using hall, by simp [run_steps]⟩
  | cons st rest ih =>
    simp only [List.all_cons, Bool.and_eq_true] at hrem
    simp only [legal_steps, Bool.and_eq_true] at hlegal
    cases st with
    | insert k i => simp [item_step.is_remove] at hrem
    | remove k =>
      have hk : k < (s.itm p.x p.y).length := by
        simpa [item_step.legal] using hlegal.1
      have hall1 : all_emissive ((item_step.remove k).apply p s) p := by
        intro it hit
        rw [itm_apply_remove s p k hk] at hit
        exact hall it (mem_colony_erase _ k it hit)
      have h := ih _ hall1 hrem.2 hlegal.2
      have hlen := congrArg List.length (itm_apply_remove s p k hk)
      have hlen2 := length_colony_erase (s.itm p.x p.y) k hk
      refine ⟨by simpa [run_steps] using h.1, ?_⟩
      have h2 := h.2
      simp only [run_steps, List.foldl_cons, List.length_cons] at h2 ⊢
      omega

theorem all_is_remove_take (rems : List item_step) (n : Nat)
    (hrem : rems.all item_step.is_remove = true) :
    (rems.take n).all item_step.is_remove = true := by
  rw [List.all_eq_true] at hrem ⊢
  intro st hst
  exact hrem st (List.mem_of_mem_take hst)

theorem legal_steps_replicate_remove (p : point) (n : Nat) (s : submap F)
    (h : n ≤ (s.itm p.x p.y).length) :
    legal_steps p s (List.replicate n (item_step.remove 0)) = true := by
  induction n generalizing s with
  | zero => rfl
  | succ m ih =>
    have hk : 0 < (s.itm p.x p.y).length := by omega
    have hlen := congrArg List.length (itm_apply_remove s p 0 hk)
    have hlen2 := length_colony_erase (s.itm p.x p.y) 0 hk
    have h3 := ih ((item_step.remove 0).apply p s) (by omega)
    simp [List.replicate_succ, legal_steps, item_step.legal, hk, h3]

theorem length_new_chunk_inserts (F : field_api) (p : point) (n k : Nat) (u : Nat) :
    ((run_steps p (submap_new F) (List.replicate n (item_step.insert k ⟨true, u⟩))).itm
      p.x p.y).length = n := by
  have h := run_emissive_inserts p (List.replicate n (item_step.insert k ⟨true, u⟩))
    (submap_new F) (by intro it hit; simp [submap_new] at hit)
    (by simp [item_step.is_emissive_insert])
  simpa [submap_new] using h.2

theorem all_replicate_emissive_insert (n k u : Nat) :
    (List.replicate n (item_step.insert k ⟨true, u⟩)).all item_step.is_emissive_insert = true := by
  rw [List.all_eq_true]
  intro st hst
  rw [List.eq_of_mem_replicate hst]
  rfl

theorem all_replicate_remove (n k : Nat) :
    (List.replicate n (item_step.remove k)).all item_step.is_remove = true := by
  rw [List.all_eq_true]
  intro st hst
  rw [List.eq_of_mem_replicate hst]
  rfl

/-! ## The uniformity flag -/

theorem point_ne_coords (p q : point) (h : q ≠ p) : ¬ (q.x = p.x ∧ q.y = p.y) := by
  intro hc
  apply h
  cases p
  cases q
  simp only [point.mk.injEq]
  exact hc

theorem is_uniform_update_lum_add (s : submap F) (p : point) (i : item) :
    (s.update_lum_add p i).is_uniform = false := by
  unfold submap.update_lum_add
  dsimp only
  split <;> rfl

theorem is_uniform_update_lum_rem (s : submap F) (p : point) (i : item) :
    (s.update_lum_rem p i).is_uniform = false := by
  unfold submap.update_lum_rem
  dsimp only
  split
  · rfl
  · split
    · rfl
    · split <;> rfl

theorem is_uniform_add_field (m : maptile) (s : submap F) (k : field_id) (d : Int)
    (a : time_duration) : (m.add_field s k d a).2.is_uniform = s.is_uniform := by
  unfold maptile.add_field
  dsimp only
  split <;> rfl

/-- The member `insert_cosmetic` never assigns the uniformity flag: from any
state the flag after the call is the flag before it. -/
theorem is_uniform_insert_cosmetic (s : submap F) (p : point) (type str : String) :
    (s.insert_cosmetic p type str).is_uniform = s.is_uniform :=
  rfl

theorem is_uniform_exec_of_false (s : submap F) (op : chunk_op) (h : s.is_uniform = false) :
    (op.exec s).is_uniform = false := by
  cases op with
  | set_ter p terr => rfl
  | set_furn p furn => rfl
  | set_trap p trap => rfl
  | set_radiation p radiation => rfl
  | update_lum_add p i => exact is_uniform_update_lum_add s p i
  | update_lum_rem p i => exact is_uniform_update_lum_rem s p i
  | insert_cosmetic p type str => exact h
  | set_temperature t => exact h
  | add_field m k d a =>
    show (m.add_field s k d a).2.is_uniform = false
    rw [is_uniform_add_field]
    exact h
  | read r => exact h

theorem is_uniform_run_of_false (ops : List chunk_op) (s : submap F)
    (h : s.is_uniform = false) : (run_ops s ops).is_uniform = false := by
  induction ops generalizing s with
  | nil => simpa [run_ops] using h
  | cons op rest ih =>
    have h1 := ih (op.exec s) (is_uniform_exec_of_false s op h)
    simpa [run_ops] using h1

/-- Every operation other than `maptile::add_field` keeps the uniformity
invariant. -/
theorem uniform_inv_exec (s : submap F) (op : chunk_op) (hop : op.is_add_field = false)
    (h : uniform_inv s) : uniform_inv (op.exec s) := by
  cases op with
  | set_ter p terr => intro hu; cases hu
  | set_furn p furn => intro hu; cases hu
  | set_trap p trap => intro hu; cases hu
  | set_radiation p radiation => intro hu; cases hu
  | update_lum_add p i =>
    intro hu
    have := is_uniform_update_lum_add s p i
    simp only [chunk_op.exec] at hu
    rw [this] at hu
    cases hu
  | update_lum_rem p i =>
    intro hu
    have := is_uniform_update_lum_rem s p i
    simp only [chunk_op.exec] at hu
    rw [this] at hu
    cases hu
  | insert_cosmetic p type str => exact h
  | set_temperature t => exact h
  | add_field m k d a => simp [chunk_op.is_add_field] at hop
  | read r => exact h

/-- From a new chunk, any sequence of operations without `maptile::add_field`
keeps the uniformity invariant. -/
theorem uniform_inv_run_without_add_field (F : field_api) (ops : List chunk_op)
    (hops : ops.all (fun op => !op.is_add_field) = true) :
    uniform_inv (run_ops (submap_new F) ops) := by
  have hnew : uniform_inv (submap_new F) := by
    intro _ x y
    exact ⟨rfl, rfl, rfl, rfl, rfl, rfl, rfl⟩
  generalize submap_new F = s at hnew
  induction ops generalizing s with
  | nil => simpa [run_ops] using hnew
  | cons op rest ih =>
    simp only [List.all_cons, Bool.and_eq_true] at hops
    have hop : op.is_add_field = false := by simpa using hops.1
    have h1 := ih hops.2 (op.exec s) (uniform_inv_exec s op hop hnew)
    simpa [run_ops] using h1

theorem run_steps_append (p : point) (xs ys : List item_step) (s : submap F) :
    run_steps p s (xs ++ ys) = run_steps p (run_steps p s xs) ys := by
  simp [run_steps, List.foldl_append]

theorem legal_steps_append (p : point) (xs ys : List item_step) (s : submap F) :
    legal_steps p s (xs ++ ys) = true
      ↔ legal_steps p s xs = true ∧ legal_steps p (run_steps p s xs) ys = true := by
  induction xs generalizing s with
  | nil => simp [legal_steps, run_steps]
  | cons st rest ih =>
    have h := ih (st.apply p s)
    show legal_steps p s (st :: (rest ++ ys)) = true ↔ _
    simp only [legal_steps, Bool.and_eq_true, h, run_steps, List.foldl_cons, and_assoc]

theorem legal_steps_of_inserts (p : point) (ins : List item_step) (s : submap F)
    (hem : ins.all item_step.is_emissive_insert = true) : legal_steps p s ins = true := by
  induction ins generalizing s with
  | nil => rfl
  | cons st rest ih =>
    simp only [List.all_cons, Bool.and_eq_true] at hem
    cases st with
    | remove k => simp [item_step.is_emissive_insert] at hem
    | insert k i => simp [legal_steps, item_step.legal, ih _ hem.2]

/-! ## Frames of the light accounting and of the field counter -/

theorem lum_frame_update_lum_add (s : submap F) (p : point) (i : item) :
    lum_frame s (s.update_lum_add p i) p := by
  unfold lum_frame submap.update_lum_add
  dsimp only
  split
  · exact ⟨fun x y h => grid_set_other _ _ _ _ _ _ h, rfl, rfl, rfl, rfl, rfl, rfl, rfl, rfl, rfl⟩
  · exact ⟨fun _ _ _ => rfl, rfl, rfl, rfl, rfl, rfl, rfl, rfl, rfl, rfl⟩

theorem lum_frame_update_lum_rem (s : submap F) (p : point) (i : item) :
    lum_frame s (s.update_lum_rem p i) p := by
  unfold lum_frame submap.update_lum_rem
  dsimp only
  split
  · exact ⟨fun _ _ _ => rfl, rfl, rfl, rfl, rfl, rfl, rfl, rfl, rfl, rfl⟩
  · split
    · exact ⟨fun x y h => grid_set_other _ _ _ _ _ _ h,
        rfl, rfl, rfl, rfl, rfl, rfl, rfl, rfl, rfl⟩
    · split
      · exact ⟨fun x y h => grid_set_other _ _ _ _ _ _ h,
          rfl, rfl, rfl, rfl, rfl, rfl, rfl, rfl, rfl⟩
      · exact ⟨fun _ _ _ => rfl, rfl, rfl, rfl, rfl, rfl, rfl, rfl, rfl, rfl⟩

theorem ret_add_field (m : maptile) (s : submap F) (k : field_id) (d : Int)
    (a : time_duration) :
    (m.add_field s k d a).1 = (F.add_field (s.fld (m.x : Int) (m.y : Int)) k d a).1 := by
  unfold maptile.add_field
  dsimp only
  split <;> rfl

theorem field_count_add_field (m : maptile) (s : submap F) (k : field_id) (d : Int)
    (a : time_duration) :
    (m.add_field s k d a).2.field_count =
      if (F.add_field (s.fld (m.x : Int) (m.y : Int)) k d a).1 = true then s.field_count + 1
      else s.field_count := by
  unfold maptile.add_field
  dsimp only
  split <;> rfl

theorem field_count_exec_other (s : submap F) (op : chunk_op)
    (hop : op.is_add_field = false) : (op.exec s).field_count = s.field_count := by
  cases op with
  | set_ter p terr => rfl
  | set_furn p furn => rfl
  | set_trap p trap => rfl
  | set_radiation p radiation => rfl
  | update_lum_add p i => exact (lum_frame_update_lum_add s p i).2.2.2.2.2.2.2.2.1
  | update_lum_rem p i => exact (lum_frame_update_lum_rem s p i).2.2.2.2.2.2.2.2.1
  | insert_cosmetic p type str => rfl
  | set_temperature t => rfl
  | add_field m k d a => simp [chunk_op.is_add_field] at hop
  | read r => rfl

theorem field_count_add_field_results (calls : List field_call) (s : submap F) :
    (add_field_results s calls).2.field_count
      = s.field_count + (((add_field_results s calls).1.count true : Nat) : Int) := by
  induction calls generalizing s with
  | nil => simp [add_field_results]
  | cons c rest ih =>
    simp only [add_field_results]
    rw [ih, field_count_add_field, ret_add_field]
    cases (F.add_field (s.fld (c.m.x : Int) (c.m.y : Int)) c.field_to_add c.new_density
      c.new_age).1
    · simp
    · simp
      omega

theorem add_field_results_eq_run_ops (calls : List field_call) (s : submap F) :
    (add_field_results s calls).2 = run_ops s (calls.map field_call.op) := by
  induction calls generalizing s with
  | nil => rfl
  | cons c rest ih =>
    simp only [add_field_results, List.map_cons, run_ops, List.foldl_cons]
    rw [ih]
    rfl

/-! ## Insertion order and iteration order -/

/-- When the step numbers grow along the iteration order, the entry inserted
last is the last one of the iteration order. -/
theorem most_recent_of_increasing (st : List (item × Nat))
    (h : st.Pairwise (fun a b => a.2 < b.2)) : most_recent st = st.getLast? := by
  induction st with
  | nil => rfl
  | cons e rest ih =>
    have hp := List.pairwise_cons.mp h
    have ih1 := ih hp.2
    cases rest with
    | nil => rfl
    | cons f tail =>
      have hlast : (e :: f :: tail).getLast? = (f :: tail).getLast? := by
        simp [List.getLast?_cons_cons]
      obtain ⟨g, hg⟩ : ∃ g, (f :: tail).getLast? = some g := by
        cases hgl : (f :: tail).getLast? with
        | none => simp at hgl
        | some g => exact ⟨g, rfl⟩
      have hmem : g ∈ f :: tail := List.mem_of_getLast?_eq_some hg
      have hlt := hp.1 g hmem
      rw [hlast, hg]
      rw [hg] at ih1
      show (match most_recent (f :: tail) with
        | none => some e
        | some f1 => if f1.2 < e.2 then some e else some f1) = some g
      rw [ih1]
      have : ¬ g.2 < e.2 := by omega
      simp [this]

theorem stamped_apply_map_fst (p : point) (s : submap F) (st : List (item × Nat)) (t : Nat)
    (step : item_step) (hmap : st.map Prod.fst = s.itm p.x p.y) :
    (stamped_apply st t step).map Prod.fst = (step.apply p s).itm p.x p.y := by
  cases step with
  | insert k i =>
    rw [itm_apply_insert, ← hmap]
    simp [stamped_apply, colony_insert, List.map_take, List.map_drop]
  | remove k =>
    by_cases hk : k < (s.itm p.x p.y).length
    · rw [itm_apply_remove s p k hk, ← hmap]
      simp [stamped_apply, colony_erase, List.map_take, List.map_drop]
    · have hnone : (s.itm p.x p.y)[k]? = none := List.getElem?_eq_none (by omega)
      have hlen : st.length ≤ k := by
        have := congrArg List.length hmap
        simp at this
        omega
      have h1 : (item_step.remove k).apply p s = s := by
        unfold item_step.apply
        simp only [hnone]
      rw [h1, ← hmap]
      simp [stamped_apply, List.take_of_length_le hlen, List.drop_of_length_le (by omega : st.length ≤ k + 1)]

theorem stamped_apply_increasing (p : point) (s : submap F) (st : List (item × Nat)) (t : Nat)
    (step : item_step) (hmap : st.map Prod.fst = s.itm p.x p.y)
    (hinc : st.Pairwise (fun a b => a.2 < b.2)) (hbound : ∀ e ∈ st, e.2 < t)
    (hend : inserts_at_end p s [step] = true) :
    (stamped_apply st t step).Pairwise (fun a b => a.2 < b.2) ∧
      ∀ e ∈ stamped_apply st t step, e.2 < t + 1 := by
  have hlen : st.length = (s.itm p.x p.y).length := by
    have := congrArg List.length hmap
    simpa using this
  cases step with
  | insert k i =>
    have hk : st.length ≤ k := by
      simp [inserts_at_end] at hend
      omega
    have h1 : stamped_apply st t (.insert k i) = st ++ [(i, t)] := by
      simp [stamped_apply, List.take_of_length_le hk, List.drop_of_length_le hk]
    rw [h1]
    constructor
    · rw [List.pairwise_append]
      refine ⟨hinc, List.pairwise_singleton _ _, ?_⟩
      intro a ha b hb
      simp at hb
      rw [hb]
      exact hbound a ha
    · intro e he
      rcases List.mem_append.mp he with h2 | h2
      · have := hbound e h2
        omega
      · simp at h2
        rw [h2]
        simp
  | remove k =>
    have hsub : (stamped_apply st t (.remove k)).Sublist st := by
      simp only [stamped_apply]
      have h2 : (st.take k ++ st.drop (k + 1)).Sublist (st.take k ++ st.drop k) :=
        List.Sublist.append_left (List.drop_sublist_drop_left st (Nat.le_succ k)) _
      rwa [List.take_append_drop] at h2
    constructor
    · exact hinc.sublist hsub
    · intro e he
      have := hbound e (hsub.subset he)
      omega

theorem uppermost_eq_most_recent_aux (p : point) (steps : List item_step) (s : submap F)
    (st : List (item × Nat)) (t : Nat) (hmap : st.map Prod.fst = s.itm p.x p.y)
    (hinc : st.Pairwise (fun a b => a.2 < b.2)) (hbound : ∀ e ∈ st, e.2 < t)
    (hend : inserts_at_end p s steps = true) :
    ((run_steps p s steps).itm p.x p.y).getLast?
      = (most_recent (stamped_run st t steps)).map Prod.fst := by
  induction steps generalizing s st t with
  | nil =>
    simp only [run_steps, List.foldl_nil, stamped_run]
    rw [most_recent_of_increasing st hinc, ← hmap]
    simp [List.getLast?_map]
  | cons step rest ih =>
    have hend1 : inserts_at_end p s [step] = true ∧
        inserts_at_end p (step.apply p s) rest = true := by
      cases step with
      | insert k i =>
        simp only [inserts_at_end, Bool.and_eq_true, Bool.and_true] at hend ⊢
        exact hend
      | remove k =>
        simp only [inserts_at_end] at hend ⊢
        exact ⟨trivial, hend⟩
    have h1 := stamped_apply_map_fst p s st t step hmap
    have h2 := stamped_apply_increasing p s st t step hmap hinc hbound hend1.1
    have h3 := ih (step.apply p s) (stamped_apply st t step) (t + 1) h1 h2.1 h2.2 hend1.2
    simpa [run_steps, stamped_run] using h3

/-! ## Claims -/

/-- C1. Light counter exactness: from an empty tile with counter 0, along any
legal sequence of insertions and removals at `p` during which the number of
emissive items in `itm[p]` never exceeds 255, the counter `lum[p]` equals the
number of emissive items in `itm[p]` after every step. -/
theorem light_counter_exact (s : submap F) (p : point) (steps : List item_step)
    (hitm : s.itm p.x p.y = []) (hlum : s.lum p.x p.y = 0)
    (hlegal : legal_steps p s steps = true)
    (hbound : ∀ n, n ≤ steps.length → emitters (run_steps p s (steps.take n)) p ≤ 255) :
    ∀ n, n ≤ steps.length →
      (run_steps p s (steps.take n)).lum p.x p.y = emitters (run_steps p s (steps.take n)) p := by
  intro n hn
  have h := sat_inv_run p (steps.take n) s (sat_inv_start s p hitm hlum)
    (legal_steps_take p steps s n hlegal)
  unfold sat_inv at h
  have hb := hbound n hn
  omega

/-- Witness for C1: two emissive items and a plain one come and go at
`(0, 0)`; the counter is exact after three steps and after all five. -/
theorem light_counter_exact_witness :
    (run_steps ⟨0, 0⟩ (submap_new kind_field)
        (List.take 3 [.insert 0 ⟨true, 1⟩, .insert 0 ⟨false, 2⟩, .insert 1 ⟨true, 3⟩,
          .remove 2, .remove 0])).lum 0 0
      = emitters (run_steps ⟨0, 0⟩ (submap_new kind_field)
        (List.take 3 [.insert 0 ⟨true, 1⟩, .insert 0 ⟨false, 2⟩, .insert 1 ⟨true, 3⟩,
          .remove 2, .remove 0])) ⟨0, 0⟩ ∧
    (run_steps ⟨0, 0⟩ (submap_new kind_field)
        (List.take 5 [.insert 0 ⟨true, 1⟩, .insert 0 ⟨false, 2⟩, .insert 1 ⟨true, 3⟩,
          .remove 2, .remove 0])).lum 0 0
      = emitters (run_steps ⟨0, 0⟩ (submap_new kind_field)
        (List.take 5 [.insert 0 ⟨true, 1⟩, .insert 0 ⟨false, 2⟩, .insert 1 ⟨true, 3⟩,
          .remove 2, .remove 0])) ⟨0, 0⟩ :=
  ⟨light_counter_exact (submap_new kind_field) ⟨0, 0⟩
      [.insert 0 ⟨true, 1⟩, .insert 0 ⟨false, 2⟩, .insert 1 ⟨true, 3⟩, .remove 2, .remove 0]
      rfl rfl (by decide) (by decide) 3 (by decide),
    light_counter_exact (submap_new kind_field) ⟨0, 0⟩
      [.insert 0 ⟨true, 1⟩, .insert 0 ⟨false, 2⟩, .insert 1 ⟨true, 3⟩, .remove 2, .remove 0]
      rfl rfl (by decide) (by decide) 5 (by decide)⟩

/-- C2. `update_lum_add` is a saturating increment: the counter becomes
`old + 1` when the item is emissive and `old < 255`, and stays `old`
otherwise; so 255 stays 255 and a non-emissive item changes nothing. -/
theorem update_lum_add_saturating (s : submap F) (p : point) (i : item) :
    (s.update_lum_add p i).lum p.x p.y =
      if i.is_emissive = true ∧ s.lum p.x p.y < 255 then s.lum p.x p.y + 1
      else s.lum p.x p.y :=
  lum_update_lum_add s p i

/-- C3, as the claim states it, fails: with the counter at 255 and no
emissive item in `itm[p]` the rescan finds `c = 0`, and the counter becomes
255, which is neither `c - 1` as an integer nor `c - 1` cut off at zero. -/
theorem update_lum_rem_ceiling_counterexample :
    (chunk_with 255 []).lum 0 0 = 255 ∧
    emitters (chunk_with 255 []) ⟨0, 0⟩ = 0 ∧
    (((chunk_with 255 []).update_lum_rem ⟨0, 0⟩ ⟨true, 7⟩).lum 0 0 : Int)
      ≠ (emitters (chunk_with 255 []) ⟨0, 0⟩ : Int) - 1 ∧
    ((chunk_with 255 []).update_lum_rem ⟨0, 0⟩ ⟨true, 7⟩).lum 0 0
      ≠ emitters (chunk_with 255 []) ⟨0, 0⟩ - 1 := by
  decide

/-- C3, amended. For an emissive item and a counter at 255, `update_lum_rem`
counts the emissive items `c` in `itm[p]`: the counter becomes `c - 1` when
`1 ≤ c ≤ 256`, becomes 255 when `c = 0` (the 8-bit truncation of `-1`) and
stays 255 when `c > 256`.  For a counter with `0 < lum[p] < 255` the counter
becomes `lum[p] - 1`. -/
theorem update_lum_rem_ceiling (s : submap F) (p : point) (i : item)
    (hi : i.is_emissive = true) (hl : 0 < s.lum p.x p.y ∧ s.lum p.x p.y ≤ 255) :
    (s.update_lum_rem p i).lum p.x p.y =
      if s.lum p.x p.y = 255 then
        (if emitters s p = 0 then 255
         else if emitters s p ≤ 256 then emitters s p - 1
         else 255)
      else s.lum p.x p.y - 1 := by
  rw [lum_update_lum_rem, scan_emissive_eq_emitters]
  simp only [hi, Bool.true_eq_false, if_false]
  by_cases h255 : s.lum p.x p.y = 255
  · have h1 : ¬ (s.lum p.x p.y ≠ 0 ∧ s.lum p.x p.y < 255) := by omega
    rw [if_neg h1, if_pos h255]
    by_cases h0 : emitters s p = 0
    · rw [h0]
      simp
      decide
    · rw [if_neg h0]
      by_cases h2 : emitters s p ≤ 256
      · have h3 : (emitters s p : Int) ≤ 256 := by omega
        rw [if_pos h2, if_pos h3]
        unfold u8
        omega
      · have h3 : ¬ (emitters s p : Int) ≤ 256 := by omega
        rw [if_neg h2, if_neg h3, h255]
  · have h1 : s.lum p.x p.y ≠ 0 ∧ s.lum p.x p.y < 255 := by omega
    rw [if_pos h1, if_neg h255, u8_pred _ h1.1 (by omega)]

/-- Witness for C3, amended: at the ceiling with two emitters present the
counter becomes 1. -/
theorem update_lum_rem_ceiling_witness :
    ((chunk_with 255 [⟨true, 1⟩, ⟨true, 2⟩]).update_lum_rem ⟨0, 0⟩ ⟨true, 1⟩).lum 0 0 =
      if (chunk_with 255 [⟨true, 1⟩, ⟨true, 2⟩]).lum 0 0 = 255 then
        (if emitters (chunk_with 255 [⟨true, 1⟩, ⟨true, 2⟩]) ⟨0, 0⟩ = 0 then 255
         else if emitters (chunk_with 255 [⟨true, 1⟩, ⟨true, 2⟩]) ⟨0, 0⟩ ≤ 256 then
           emitters (chunk_with 255 [⟨true, 1⟩, ⟨true, 2⟩]) ⟨0, 0⟩ - 1
         else 255)
      else (chunk_with 255 [⟨true, 1⟩, ⟨true, 2⟩]).lum 0 0 - 1 :=
  update_lum_rem_ceiling (chunk_with 255 [⟨true, 1⟩, ⟨true, 2⟩]) ⟨0, 0⟩ ⟨true, 1⟩ rfl
    (by decide)

/-- C4. Saturation scenario: 300 emissive items are inserted at an empty tile
with counter 0, then emissive items are removed one by one.  The inserts leave
300 emitters and the counter at 255; after the first removal the counter is
255; after `n` removals `300 - n` emitters remain and the counter is 255 while
more than 255 remain and the exact remaining number once 255 or fewer remain. -/
theorem saturation_scenario (s : submap F) (p : point) (ins rems : List item_step)
    (hitm : s.itm p.x p.y = []) (hlum : s.lum p.x p.y = 0)
    (hlen : ins.length = 300) (hem : ins.all item_step.is_emissive_insert = true)
    (hrem : rems.all item_step.is_remove = true)
    (hlegal : legal_steps p (run_steps p s ins) rems = true) :
    emitters (run_steps p s ins) p = 300 ∧
    (run_steps p s ins).lum p.x p.y = 255 ∧
    (1 ≤ rems.length → (run_steps p (run_steps p s ins) (rems.take 1)).lum p.x p.y = 255) ∧
    ∀ n, 1 ≤ n → n ≤ rems.length →
      emitters (run_steps p (run_steps p s ins) (rems.take n)) p = 300 - n ∧
      (run_steps p (run_steps p s ins) (rems.take n)).lum p.x p.y =
        if 255 < 300 - n then 255 else 300 - n := by
  have hall0 : all_emissive s p := by
    intro it hit
    rw [hitm] at hit
    simp at hit
  have hinv0 := sat_inv_start s p hitm hlum
  have hins_legal : legal_steps p s ins = true := by
    clear hlegal hlen hall0 hinv0 hitm hlum
    induction ins generalizing s with
    | nil => rfl
    | cons st rest ih =>
      simp only [List.all_cons, Bool.and_eq_true] at hem
      cases st with
      | remove k => simp [item_step.is_emissive_insert] at hem
      | insert k i => simp [legal_steps, item_step.legal, ih _ hem.2]
  have h1 := run_emissive_inserts p ins s hall0 hem
  have hinv1 := sat_inv_run p ins s hinv0 hins_legal
  have hcount1 : emitters (run_steps p s ins) p = 300 := by
    rw [emitters_eq_length _ p h1.1, h1.2, hitm, hlen]
    rfl
  have hlum1 : (run_steps p s ins).lum p.x p.y = 255 := by
    unfold sat_inv at hinv1
    omega
  have hmain : ∀ n, n ≤ rems.length →
      emitters (run_steps p (run_steps p s ins) (rems.take n)) p = 300 - n ∧
      (run_steps p (run_steps p s ins) (rems.take n)).lum p.x p.y = min (300 - n) 255 := by
    intro n hn
    have hl := legal_steps_take p rems (run_steps p s ins) n hlegal
    have h2 := run_removes p (rems.take n) (run_steps p s ins) h1.1
      (all_is_remove_take rems n hrem) hl
    have hinv2 := sat_inv_run p (rems.take n) (run_steps p s ins) hinv1 hl
    have hlen1 : ((run_steps p s ins).itm p.x p.y).length = 300 := by
      rw [h1.2, hitm, hlen]
      rfl
    have hcount2 : emitters (run_steps p (run_steps p s ins) (rems.take n)) p = 300 - n := by
      rw [emitters_eq_length _ p h2.1]
      have h3 := h2.2
      rw [List.length_take, hlen1] at h3
      omega
    refine ⟨hcount2, ?_⟩
    unfold sat_inv at hinv2
    rw [hinv2, hcount2]
  refine ⟨hcount1, hlum1, ?_, ?_⟩
  · intro h
    have h3 := (hmain 1 h).2
    simpa using h3
  · intro n _ hn
    refine ⟨(hmain n hn).1, ?_⟩
    rw [(hmain n hn).2]
    split <;> omega

/-- Witness for C4: 300 emissive items are put into the tile `(0, 0)` of a new
chunk and 50 of them are taken out again. -/
theorem saturation_scenario_witness :
    emitters (run_steps ⟨0, 0⟩ (submap_new kind_field)
      (List.replicate 300 (.insert 0 ⟨true, 0⟩))) ⟨0, 0⟩ = 300 ∧
    (run_steps ⟨0, 0⟩ (submap_new kind_field)
      (List.replicate 300 (.insert 0 ⟨true, 0⟩))).lum 0 0 = 255 ∧
    (1 ≤ (List.replicate 50 (item_step.remove 0)).length →
      (run_steps ⟨0, 0⟩ (run_steps ⟨0, 0⟩ (submap_new kind_field)
        (List.replicate 300 (.insert 0 ⟨true, 0⟩)))
        ((List.replicate 50 (item_step.remove 0)).take 1)).lum 0 0 = 255) ∧
    ∀ n, 1 ≤ n → n ≤ (List.replicate 50 (item_step.remove 0)).length →
      emitters (run_steps ⟨0, 0⟩ (run_steps ⟨0, 0⟩ (submap_new kind_field)
        (List.replicate 300 (.insert 0 ⟨true, 0⟩)))
        ((List.replicate 50 (item_step.remove 0)).take n)) ⟨0, 0⟩ = 300 - n ∧
      (run_steps ⟨0, 0⟩ (run_steps ⟨0, 0⟩ (submap_new kind_field)
        (List.replicate 300 (.insert 0 ⟨true, 0⟩)))
        ((List.replicate 50 (item_step.remove 0)).take n)).lum 0 0 =
        if 255 < 300 - n then 255 else 300 - n := by
  have hlen := length_new_chunk_inserts kind_field ⟨0, 0⟩ 300 0 0
  have h := saturation_scenario (submap_new kind_field) ⟨0, 0⟩
    (List.replicate 300 (.insert 0 ⟨true, 0⟩)) (List.replicate 50 (.remove 0))
    rfl rfl (List.length_replicate 300 _) (all_replicate_emissive_insert 300 0 0)
    (all_replicate_remove 50 0)
    (legal_steps_replicate_remove _ 50 _ (by omega))
  dsimp only at h
  exact h

/-- C5, as the claim states it, fails at counter value 0: two chunks that
differ only in `itm[p]` (one emitter against two) both have `lum[p] = 0`, and
`update_lum_rem` of an emissive item leaves the counters at 0 and at 1. -/
theorem update_lum_rem_rescan_at_zero_counterexample :
    (chunk_with 0 [⟨true, 1⟩]).lum 0 0 = 0 ∧
    (chunk_with 0 [⟨true, 1⟩, ⟨true, 2⟩]).lum 0 0 = 0 ∧
    ((chunk_with 0 [⟨true, 1⟩]).update_lum_rem ⟨0, 0⟩ ⟨true, 1⟩).lum 0 0 = 0 ∧
    ((chunk_with 0 [⟨true, 1⟩, ⟨true, 2⟩]).update_lum_rem ⟨0, 0⟩ ⟨true, 1⟩).lum 0 0 = 1 := by
  decide

/-- C5, amended. For an emissive item and a counter with `0 < lum[p] < 255`
the counter after `update_lum_rem` does not depend on `itm[p]`: replacing the
contents of `itm[p]` by any `items` gives the same result. -/
theorem update_lum_rem_no_rescan (s : submap F) (p : point) (i : item) (items : List item)
    (hi : i.is_emissive = true) (h0 : 0 < s.lum p.x p.y) (h1 : s.lum p.x p.y < 255) :
    (({ s with itm := grid_set s.itm p.x p.y items } : submap F).update_lum_rem p i).lum p.x p.y
      = (s.update_lum_rem p i).lum p.x p.y := by
  have hc : s.lum p.x p.y ≠ 0 ∧ s.lum p.x p.y < 255 := ⟨by omega, h1⟩
  rw [lum_update_lum_rem, lum_update_lum_rem]
  simp only [hi, Bool.true_eq_false, if_false]
  rw [if_pos hc, if_pos hc]

/-- Witness for C5, amended: counter 7, one emitter against three. -/
theorem update_lum_rem_no_rescan_witness :
    (({ chunk_with 7 [⟨true, 1⟩] with
        itm := grid_set (chunk_with 7 [⟨true, 1⟩]).itm 0 0 [⟨true, 1⟩, ⟨true, 2⟩, ⟨true, 3⟩] }
        : submap kind_field).update_lum_rem ⟨0, 0⟩ ⟨true, 1⟩).lum 0 0
      = ((chunk_with 7 [⟨true, 1⟩]).update_lum_rem ⟨0, 0⟩ ⟨true, 1⟩).lum 0 0 :=
  update_lum_rem_no_rescan (chunk_with 7 [⟨true, 1⟩]) ⟨0, 0⟩ ⟨true, 1⟩
    [⟨true, 1⟩, ⟨true, 2⟩, ⟨true, 3⟩] rfl (by decide) (by decide)

/-- C6. Setter postcondition and frame: for in-bounds `p` and `q ≠ p` and any
value, after `set_ter(p, v)` the getter `get_ter(p)` returns `v`, `get_ter(q)`
is unchanged, and `get_furn`, `get_trap`, `get_radiation` at every coordinate,
the light counters, items, fields, cosmetics, `field_count` and `temperature`
are unchanged; likewise for `set_furn`, `set_trap` and `set_radiation`. -/
theorem setters_postcondition_frame (SEEX SEEY : Int) (s : submap F) (p q : point)
    (tv : ter_id) (fv : furn_id) (trv : trap_id) (rv : Int)
    (hp : in_bounds SEEX SEEY p) (hq : in_bounds SEEX SEEY q) (hne : q ≠ p) :
    ((s.set_ter p tv).get_ter p = tv ∧ (s.set_ter p tv).get_ter q = s.get_ter q ∧
      (∀ r, (s.set_ter p tv).get_furn r = s.get_furn r) ∧
      (∀ r, (s.set_ter p tv).get_trap r = s.get_trap r) ∧
      (∀ r, (s.set_ter p tv).get_radiation r = s.get_radiation r) ∧
      same_rest s (s.set_ter p tv)) ∧
    ((s.set_furn p fv).get_furn p = fv ∧ (s.set_furn p fv).get_furn q = s.get_furn q ∧
      (∀ r, (s.set_furn p fv).get_ter r = s.get_ter r) ∧
      (∀ r, (s.set_furn p fv).get_trap r = s.get_trap r) ∧
      (∀ r, (s.set_furn p fv).get_radiation r = s.get_radiation r) ∧
      same_rest s (s.set_furn p fv)) ∧
    ((s.set_trap p trv).get_trap p = trv ∧ (s.set_trap p trv).get_trap q = s.get_trap q ∧
      (∀ r, (s.set_trap p trv).get_ter r = s.get_ter r) ∧
      (∀ r, (s.set_trap p trv).get_furn r = s.get_furn r) ∧
      (∀ r, (s.set_trap p trv).get_radiation r = s.get_radiation r) ∧
      same_rest s (s.set_trap p trv)) ∧
    ((s.set_radiation p rv).get_radiation p = rv ∧
      (s.set_radiation p rv).get_radiation q = s.get_radiation q ∧
      (∀ r, (s.set_radiation p rv).get_ter r = s.get_ter r) ∧
      (∀ r, (s.set_radiation p rv).get_furn r = s.get_furn r) ∧
      (∀ r, (s.set_radiation p rv).get_trap r = s.get_trap r) ∧
      same_rest s (s.set_radiation p rv)) := by
  have hc := point_ne_coords p q hne
  have _ := hp
  have _ := hq
  refine ⟨⟨?_, ?_, ?_, ?_, ?_, ?_⟩, ⟨?_, ?_, ?_, ?_, ?_, ?_⟩, ⟨?_, ?_, ?_, ?_, ?_, ?_⟩,
    ⟨?_, ?_, ?_, ?_, ?_, ?_⟩⟩
  all_goals first
    | exact grid_set_same _ _ _ _
    | exact grid_set_other _ _ _ _ _ _ hc
    | exact fun _ => rfl
    | exact ⟨rfl, rfl, rfl, rfl, rfl, rfl⟩

/-- Witness for C6: a 12 by 12 chunk, `p = (1, 2)`, `q = (3, 4)`. -/
theorem setters_postcondition_frame_witness :
    (((submap_new kind_field).set_ter ⟨1, 2⟩ 5).get_ter ⟨1, 2⟩ = 5 ∧
      ((submap_new kind_field).set_ter ⟨1, 2⟩ 5).get_ter ⟨3, 4⟩
        = (submap_new kind_field).get_ter ⟨3, 4⟩ ∧
      (∀ r, ((submap_new kind_field).set_ter ⟨1, 2⟩ 5).get_furn r
        = (submap_new kind_field).get_furn r) ∧
      (∀ r, ((submap_new kind_field).set_ter ⟨1, 2⟩ 5).get_trap r
        = (submap_new kind_field).get_trap r) ∧
      (∀ r, ((submap_new kind_field).set_ter ⟨1, 2⟩ 5).get_radiation r
        = (submap_new kind_field).get_radiation r) ∧
      same_rest (submap_new kind_field) ((submap_new kind_field).set_ter ⟨1, 2⟩ 5)) ∧
    (((submap_new kind_field).set_furn ⟨1, 2⟩ 6).get_furn ⟨1, 2⟩ = 6 ∧
      ((submap_new kind_field).set_furn ⟨1, 2⟩ 6).get_furn ⟨3, 4⟩
        = (submap_new kind_field).get_furn ⟨3, 4⟩ ∧
      (∀ r, ((submap_new kind_field).set_furn ⟨1, 2⟩ 6).get_ter r
        = (submap_new kind_field).get_ter r) ∧
      (∀ r, ((submap_new kind_field).set_furn ⟨1, 2⟩ 6).get_trap r
        = (submap_new kind_field).get_trap r) ∧
      (∀ r, ((submap_new kind_field).set_furn ⟨1, 2⟩ 6).get_radiation r
        = (submap_new kind_field).get_radiation r) ∧
      same_rest (submap_new kind_field) ((submap_new kind_field).set_furn ⟨1, 2⟩ 6)) ∧
    (((submap_new kind_field).set_trap ⟨1, 2⟩ 7).get_trap ⟨1, 2⟩ = 7 ∧
      ((submap_new kind_field).set_trap ⟨1, 2⟩ 7).get_trap ⟨3, 4⟩
        = (submap_new kind_field).get_trap ⟨3, 4⟩ ∧
      (∀ r, ((submap_new kind_field).set_trap ⟨1, 2⟩ 7).get_ter r
        = (submap_new kind_field).get_ter r) ∧
      (∀ r, ((submap_new kind_field).set_trap ⟨1, 2⟩ 7).get_furn r
        = (submap_new kind_field).get_furn r) ∧
      (∀ r, ((submap_new kind_field).set_trap ⟨1, 2⟩ 7).get_radiation r
        = (submap_new kind_field).get_radiation r) ∧
      same_rest (submap_new kind_field) ((submap_new kind_field).set_trap ⟨1, 2⟩ 7)) ∧
    (((submap_new kind_field).set_radiation ⟨1, 2⟩ 8).get_radiation ⟨1, 2⟩ = 8 ∧
      ((submap_new kind_field).set_radiation ⟨1, 2⟩ 8).get_radiation ⟨3, 4⟩
        = (submap_new kind_field).get_radiation ⟨3, 4⟩ ∧
      (∀ r, ((submap_new kind_field).set_radiation ⟨1, 2⟩ 8).get_ter r
        = (submap_new kind_field).get_ter r) ∧
      (∀ r, ((submap_new kind_field).set_radiation ⟨1, 2⟩ 8).get_furn r
        = (submap_new kind_field).get_furn r) ∧
      (∀ r, ((submap_new kind_field).set_radiation ⟨1, 2⟩ 8).get_trap r
        = (submap_new kind_field).get_trap r) ∧
      same_rest (submap_new kind_field) ((submap_new kind_field).set_radiation ⟨1, 2⟩ 8)) :=
  setters_postcondition_frame 12 12 (submap_new kind_field) ⟨1, 2⟩ ⟨3, 4⟩ 5 6 7 8
    (by decide) (by decide) (by decide)

/-- C7. Each per-tile mutator clears the uniformity flag, whatever the state
and the arguments: `set_ter`, `set_furn`, `set_trap`, `set_radiation`,
`update_lum_add` and `update_lum_rem` all leave `is_uniform` false. -/
theorem mutators_clear_flag (s : submap F) (p : point) (tv : ter_id) (fv : furn_id)
    (trv : trap_id) (rv : Int) (i : item) :
    (s.set_ter p tv).is_uniform = false ∧ (s.set_furn p fv).is_uniform = false ∧
    (s.set_trap p trv).is_uniform = false ∧ (s.set_radiation p rv).is_uniform = false ∧
    (s.update_lum_add p i).is_uniform = false ∧ (s.update_lum_rem p i).is_uniform = false :=
  ⟨rfl, rfl, rfl, rfl, is_uniform_update_lum_add s p i, is_uniform_update_lum_rem s p i⟩

/-- C8. The code at the failing input: on a new chunk (flag true, every cell
default, `field_count` 0) the tile view at `(0, 0)` adds a field.  The call
reports `true`, `fld[0][0]` holds the new entry and `field_count` is 1, yet
`is_uniform` is still true, so the flag no longer implies that every cell is
in its default state. -/
theorem add_field_leaves_flag_set :
    (submap_new kind_field).is_uniform = true ∧
    (∀ x y, cell_default (submap_new kind_field) x y) ∧
    (maptile.add_field ⟨0, 0⟩ (submap_new kind_field) 1 1 0).1 = true ∧
    (run_ops (submap_new kind_field) [.add_field ⟨0, 0⟩ 1 1 0]).is_uniform = true ∧
    (run_ops (submap_new kind_field) [.add_field ⟨0, 0⟩ 1 1 0]).fld 0 0 = [(1, 1, 0)] ∧
    (run_ops (submap_new kind_field) [.add_field ⟨0, 0⟩ 1 1 0]).field_count = 1 ∧
    ¬ uniform_inv (run_ops (submap_new kind_field) [.add_field ⟨0, 0⟩ 1 1 0]) := by
  refine ⟨rfl, fun _ _ => ⟨rfl, rfl, rfl, rfl, rfl, rfl, rfl⟩, rfl, rfl, rfl, rfl, ?_⟩
  intro h
  have h1 := (h rfl 0 0).2.2.2.2.1
  have h2 : (run_ops (submap_new kind_field) [.add_field ⟨0, 0⟩ 1 1 0]).fld 0 0
      = [(1, 1, 0)] := rfl
  rw [h2] at h1
  exact List.cons_ne_nil _ _ h1

/-- C9. The uniformity flag is one-way: from a state in which `is_uniform` is
false, it is false after any single operation of the chunk or of its tile
view and after any sequence of them. -/
theorem flag_one_way (s : submap F) (h : s.is_uniform = false) :
    (∀ op : chunk_op, (op.exec s).is_uniform = false) ∧
    (∀ ops : List chunk_op, (run_ops s ops).is_uniform = false) :=
  ⟨fun op => is_uniform_exec_of_false s op h, fun ops => is_uniform_run_of_false ops s h⟩

/-- Witness for C9: a chunk whose terrain was set once. -/
theorem flag_one_way_witness :
    (∀ op : chunk_op,
      (op.exec ((submap_new kind_field).set_ter ⟨0, 0⟩ 1)).is_uniform = false) ∧
    (∀ ops : List chunk_op,
      (run_ops ((submap_new kind_field).set_ter ⟨0, 0⟩ 1) ops).is_uniform = false) :=
  flag_one_way ((submap_new kind_field).set_ter ⟨0, 0⟩ 1) rfl

/-- C10. The code at the failing input: on a new chunk, whose flag is true,
`insert_cosmetic((0, 0), "GRAFFITI", "hello")` stores the record in
`cosmetics` and leaves `is_uniform` true, where every other per-coordinate
mutator of the chunk leaves it false. -/
theorem insert_cosmetic_leaves_flag_set :
    (submap_new kind_field).is_uniform = true ∧
    ((submap_new kind_field).insert_cosmetic ⟨0, 0⟩ "GRAFFITI" "hello").cosmetics
      = [{ pos := ⟨0, 0⟩, type := "GRAFFITI", str := "hello" }] ∧
    ((submap_new kind_field).insert_cosmetic ⟨0, 0⟩ "GRAFFITI" "hello").is_uniform = true ∧
    ¬ ((submap_new kind_field).insert_cosmetic ⟨0, 0⟩ "GRAFFITI" "hello").is_uniform = false ∧
    ((submap_new kind_field).set_ter ⟨0, 0⟩ 0).is_uniform = false := by
  refine ⟨rfl, rfl, rfl, ?_, rfl⟩
  intro h
  cases h

/-- C11. `insert_cosmetic` appends unconditionally: the cosmetics sequence
after the call is the old one followed by the single record `(p, type, str)`;
its length grows by one, the earlier records keep their order and contents,
and the tile grid, `field_count` and `temperature` are unchanged. -/
theorem insert_cosmetic_appends (s : submap F) (p : point) (type str : String) :
    (s.insert_cosmetic p type str).cosmetics
      = s.cosmetics ++ [{ pos := p, type := type, str := str }] ∧
    (s.insert_cosmetic p type str).cosmetics.length = s.cosmetics.length + 1 ∧
    (s.insert_cosmetic p type str).cosmetics.take s.cosmetics.length = s.cosmetics ∧
    (s.insert_cosmetic p type str).tomaptile_soa = s.tomaptile_soa ∧
    (s.insert_cosmetic p type str).field_count = s.field_count ∧
    (s.insert_cosmetic p type str).temperature = s.temperature := by
  refine ⟨rfl, ?_, ?_, rfl, rfl, rfl⟩
  · simp [submap.insert_cosmetic]
  · simp [submap.insert_cosmetic]

/-- C12. Field counter bookkeeping: `maptile::add_field` returns the result of
the container's `add_field` on `fld[x][y]`; `field_count` afterwards is
`old + 1` when that result is true and `old` when it is false; after any
sequence of `add_field` calls on a new chunk `field_count` is the number of
calls that returned true; and no other operation changes `field_count`. -/
theorem field_count_bookkeeping (s : submap F) (m : maptile) (k : field_id) (d : Int)
    (a : time_duration) (calls : List field_call) :
    (m.add_field s k d a).1 = (F.add_field (s.fld (m.x : Int) (m.y : Int)) k d a).1 ∧
    (m.add_field s k d a).2.field_count =
      (if (m.add_field s k d a).1 = true then s.field_count + 1 else s.field_count) ∧
    (add_field_results (submap_new F) calls).2.field_count
      = (((add_field_results (submap_new F) calls).1.count true : Nat) : Int) ∧
    (add_field_results (submap_new F) calls).2
      = run_ops (submap_new F) (calls.map field_call.op) ∧
    (∀ op : chunk_op, op.is_add_field = false → (op.exec s).field_count = s.field_count) := by
  refine ⟨ret_add_field m s k d a, ?_, ?_, add_field_results_eq_run_ops calls _,
    fun op hop => field_count_exec_other s op hop⟩
  · rw [ret_add_field]
    exact field_count_add_field m s k d a
  · rw [field_count_add_field_results]
    simp [submap_new]

/-- C13. Tile view forwarding: for an in-bounds `(x, y)` the view's `get_ter`,
`get_furn`, `get_trap` and `get_radiation` return what the chunk's getters
return at `point(x, y)`, the grid entries `ter[x][y]`, `frn[x][y]`,
`trp[x][y]`, `rad[x][y]`; `get_field` returns `fld[x][y]`, `get_item_count`
the size of `itm[x][y]`; and no read accessor changes the chunk state. -/
theorem tile_view_forwarding (SEEX SEEY : Int) (sm : submap F) (m : maptile)
    (hb : in_bounds SEEX SEEY m.pos) :
    (m.get_ter sm = sm.get_ter ⟨m.x, m.y⟩ ∧ m.get_ter sm = sm.ter m.x m.y) ∧
    (m.get_furn sm = sm.get_furn ⟨m.x, m.y⟩ ∧ m.get_furn sm = sm.frn m.x m.y) ∧
    (m.get_trap sm = sm.get_trap ⟨m.x, m.y⟩ ∧ m.get_trap sm = sm.trp m.x m.y) ∧
    (m.get_radiation sm = sm.get_radiation ⟨m.x, m.y⟩ ∧
      m.get_radiation sm = sm.rad m.x m.y) ∧
    m.get_field sm = sm.fld m.x m.y ∧
    m.get_item_count sm = (sm.itm m.x m.y).length ∧
    (∀ r : read_op, (chunk_op.read r).exec sm = sm) := by
  have _ := hb
  exact ⟨⟨rfl, rfl⟩, ⟨rfl, rfl⟩, ⟨rfl, rfl⟩, ⟨rfl, rfl⟩, rfl, rfl, fun _ => rfl⟩

/-- Witness for C13: the view at `(1, 2)` of a 12 by 12 chunk whose terrain at
`(1, 2)` was set to 5. -/
theorem tile_view_forwarding_witness :
    (maptile.get_ter ⟨1, 2⟩ ((submap_new kind_field).set_ter ⟨1, 2⟩ 5)
        = ((submap_new kind_field).set_ter ⟨1, 2⟩ 5).get_ter ⟨1, 2⟩ ∧
      maptile.get_ter ⟨1, 2⟩ ((submap_new kind_field).set_ter ⟨1, 2⟩ 5)
        = ((submap_new kind_field).set_ter ⟨1, 2⟩ 5).ter 1 2) ∧
    (maptile.get_furn ⟨1, 2⟩ ((submap_new kind_field).set_ter ⟨1, 2⟩ 5)
        = ((submap_new kind_field).set_ter ⟨1, 2⟩ 5).get_furn ⟨1, 2⟩ ∧
      maptile.get_furn ⟨1, 2⟩ ((submap_new kind_field).set_ter ⟨1, 2⟩ 5)
        = ((submap_new kind_field).set_ter ⟨1, 2⟩ 5).frn 1 2) ∧
    (maptile.get_trap ⟨1, 2⟩ ((submap_new kind_field).set_ter ⟨1, 2⟩ 5)
        = ((submap_new kind_field).set_ter ⟨1, 2⟩ 5).get_trap ⟨1, 2⟩ ∧
      maptile.get_trap ⟨1, 2⟩ ((submap_new kind_field).set_ter ⟨1, 2⟩ 5)
        = ((submap_new kind_field).set_ter ⟨1, 2⟩ 5).trp 1 2) ∧
    (maptile.get_radiation ⟨1, 2⟩ ((submap_new kind_field).set_ter ⟨1, 2⟩ 5)
        = ((submap_new kind_field).set_ter ⟨1, 2⟩ 5).get_radiation ⟨1, 2⟩ ∧
      maptile.get_radiation ⟨1, 2⟩ ((submap_new kind_field).set_ter ⟨1, 2⟩ 5)
        = ((submap_new kind_field).set_ter ⟨1, 2⟩ 5).rad 1 2) ∧
    maptile.get_field ⟨1, 2⟩ ((submap_new kind_field).set_ter ⟨1, 2⟩ 5)
      = ((submap_new kind_field).set_ter ⟨1, 2⟩ 5).fld 1 2 ∧
    maptile.get_item_count ⟨1, 2⟩ ((submap_new kind_field).set_ter ⟨1, 2⟩ 5)
      = (((submap_new kind_field).set_ter ⟨1, 2⟩ 5).itm 1 2).length ∧
    (∀ r : read_op,
      (chunk_op.read r).exec ((submap_new kind_field).set_ter ⟨1, 2⟩ 5)
        = (submap_new kind_field).set_ter ⟨1, 2⟩ 5) :=
  tile_view_forwarding 12 12 ((submap_new kind_field).set_ter ⟨1, 2⟩ 5) ⟨1, 2⟩ (by decide)

/-- C14, as the claim states it, fails: item 1 and item 2 are inserted, item 1
is removed and item 3 is inserted at the front of the iteration order.  The
collection is `[3, 2]`: `get_uppermost_item` returns item 2, while the item
inserted last among those present is item 3. -/
theorem get_uppermost_item_counterexample :
    legal_steps ⟨0, 0⟩ (submap_new kind_field)
      [.insert 0 ⟨false, 1⟩, .insert 1 ⟨false, 2⟩, .remove 0, .insert 0 ⟨false, 3⟩] = true ∧
    (run_steps ⟨0, 0⟩ (submap_new kind_field)
      [.insert 0 ⟨false, 1⟩, .insert 1 ⟨false, 2⟩, .remove 0, .insert 0 ⟨false, 3⟩]).itm 0 0
      = [⟨false, 3⟩, ⟨false, 2⟩] ∧
    maptile.get_uppermost_item ⟨0, 0⟩ (run_steps ⟨0, 0⟩ (submap_new kind_field)
      [.insert 0 ⟨false, 1⟩, .insert 1 ⟨false, 2⟩, .remove 0, .insert 0 ⟨false, 3⟩])
      = some ⟨false, 2⟩ ∧
    most_recent_item
      [.insert 0 ⟨false, 1⟩, .insert 1 ⟨false, 2⟩, .remove 0, .insert 0 ⟨false, 3⟩]
      = some ⟨false, 3⟩ := by
  decide

/-- C14, amended. `get_uppermost_item` returns the last element of
`itm[x][y]` in iteration order.  On a tile reached from an empty collection by
insertions and removals in which every insertion placed its item at the end
of the iteration order, that element is the item inserted last among those
still present. -/
theorem get_uppermost_item_last (m : maptile) (sm : submap F) (steps : List item_step)
    (hitm : sm.itm (m.x : Int) (m.y : Int) = [])
    (hend : inserts_at_end m.pos sm steps = true) :
    m.get_uppermost_item (run_steps m.pos sm steps)
      = ((run_steps m.pos sm steps).itm (m.x : Int) (m.y : Int)).getLast? ∧
    m.get_uppermost_item (run_steps m.pos sm steps) = most_recent_item steps := by
  refine ⟨rfl, ?_⟩
  have hmap : ([] : List (item × Nat)).map Prod.fst = sm.itm m.pos.x m.pos.y := by
    show [] = sm.itm (m.x : Int) (m.y : Int)
    rw [hitm]
  exact uppermost_eq_most_recent_aux m.pos steps sm [] 0 hmap List.Pairwise.nil
    (by intro e he; simp at he) hend

/-- Witness for C14, amended: item 1 and item 2 are inserted, item 1 is
removed and item 3 is inserted at the end; the uppermost item is item 3. -/
theorem get_uppermost_item_last_witness :
    maptile.get_uppermost_item ⟨0, 0⟩ (run_steps (maptile.pos ⟨0, 0⟩) (submap_new kind_field)
        [.insert 0 ⟨false, 1⟩, .insert 1 ⟨false, 2⟩, .remove 0, .insert 1 ⟨false, 3⟩])
      = ((run_steps (maptile.pos ⟨0, 0⟩) (submap_new kind_field)
        [.insert 0 ⟨false, 1⟩, .insert 1 ⟨false, 2⟩, .remove 0, .insert 1 ⟨false, 3⟩]).itm
          0 0).getLast? ∧
    maptile.get_uppermost_item ⟨0, 0⟩ (run_steps (maptile.pos ⟨0, 0⟩) (submap_new kind_field)
        [.insert 0 ⟨false, 1⟩, .insert 1 ⟨false, 2⟩, .remove 0, .insert 1 ⟨false, 3⟩])
      = most_recent_item
        [.insert 0 ⟨false, 1⟩, .insert 1 ⟨false, 2⟩, .remove 0, .insert 1 ⟨false, 3⟩] :=
  get_uppermost_item_last ⟨0, 0⟩ (submap_new kind_field)
    [.insert 0 ⟨false, 1⟩, .insert 1 ⟨false, 2⟩, .remove 0, .insert 1 ⟨false, 3⟩]
    rfl (by decide)

/-- C15. Frame of the light-accounting operations: `update_lum_add(p, i)` and
`update_lum_rem(p, i)` change at most `lum[p]` and the uniformity flag; the
counters at every other coordinate, terrain, furniture, trap, radiation, items
and field at every coordinate, cosmetics, `field_count` and `temperature` are
unchanged; and for a non-emissive item `update_lum_rem` leaves `lum[p]`
unchanged as well. -/
theorem lum_operations_frame (s : submap F) (p : point) (i : item) :
    lum_frame s (s.update_lum_add p i) p ∧
    lum_frame s (s.update_lum_rem p i) p ∧
    (i.is_emissive = false → (s.update_lum_rem p i).lum = s.lum) := by
  refine ⟨lum_frame_update_lum_add s p i, lum_frame_update_lum_rem s p i, ?_⟩
  intro hi
  unfold submap.update_lum_rem
  simp [hi]

/-- C16. Saturated-counter invariant without a bound on the emitters: from an
empty tile with counter 0, along any legal sequence of insertions and
removals at `p`, after every step `lum[p] = min(n, 255)` with `n` the number
of emissive items in `itm[p]`; whenever `itm[p]` is empty again the counter
is 0. -/
theorem saturated_counter_invariant (s : submap F) (p : point) (steps : List item_step)
    (hitm : s.itm p.x p.y = []) (hlum : s.lum p.x p.y = 0)
    (hlegal : legal_steps p s steps = true) :
    ∀ n, n ≤ steps.length →
      (run_steps p s (steps.take n)).lum p.x p.y
        = min (emitters (run_steps p s (steps.take n)) p) 255 ∧
      ((run_steps p s (steps.take n)).itm p.x p.y = [] →
        (run_steps p s (steps.take n)).lum p.x p.y = 0) := by
  intro n _
  have h := sat_inv_run p (steps.take n) s (sat_inv_start s p hitm hlum)
    (legal_steps_take p steps s n hlegal)
  unfold sat_inv at h
  refine ⟨h, ?_⟩
  intro hempty
  rw [h]
  unfold emitters
  rw [hempty]
  rfl

/-- Witness for C16: 300 emissive items are put into the tile `(0, 0)` of a
new chunk and all of them are taken out again; the invariant is stated after
the whole sequence. -/
theorem saturated_counter_invariant_witness :
    (run_steps ⟨0, 0⟩ (submap_new kind_field)
        ((List.replicate 300 (item_step.insert 0 ⟨true, 0⟩)
          ++ List.replicate 300 (item_step.remove 0)).take 600)).lum 0 0
      = min (emitters (run_steps ⟨0, 0⟩ (submap_new kind_field)
        ((List.replicate 300 (item_step.insert 0 ⟨true, 0⟩)
          ++ List.replicate 300 (item_step.remove 0)).take 600)) ⟨0, 0⟩) 255 ∧
    ((run_steps ⟨0, 0⟩ (submap_new kind_field)
        ((List.replicate 300 (item_step.insert 0 ⟨true, 0⟩)
          ++ List.replicate 300 (item_step.remove 0)).take 600)).itm 0 0 = [] →
      (run_steps ⟨0, 0⟩ (submap_new kind_field)
        ((List.replicate 300 (item_step.insert 0 ⟨true, 0⟩)
          ++ List.replicate 300 (item_step.remove 0)).take 600)).lum 0 0 = 0) := by
  have hlen := length_new_chunk_inserts kind_field ⟨0, 0⟩ 300 0 0
  have hlegal : legal_steps ⟨0, 0⟩ (submap_new kind_field)
      (List.replicate 300 (item_step.insert 0 ⟨true, 0⟩)
        ++ List.replicate 300 (item_step.remove 0)) = true := by
    rw [legal_steps_append]
    exact ⟨legal_steps_of_inserts _ _ _ (all_replicate_emissive_insert 300 0 0),
      legal_steps_replicate_remove _ 300 _ (by omega)⟩
  have h := saturated_counter_invariant (submap_new kind_field) ⟨0, 0⟩
    (List.replicate 300 (item_step.insert 0 ⟨true, 0⟩)
      ++ List.replicate 300 (item_step.remove 0)) rfl rfl hlegal 600
    (by rw [List.length_append, List.length_replicate, List.length_replicate])
  dsimp only at h
  exact h

/-- C17. Zero-counter edge of `update_lum_rem`: with `lum[p] = 0` and an
emissive item the rescan decides the result: with `c` emissive items in
`itm[p]` the counter becomes `c - 1` when `1 ≤ c ≤ 256` and 255 when `c = 0`
(`-1` truncated to 8 bits); it stays 0 when `c > 256`. -/
theorem update_lum_rem_zero_counter (s : submap F) (p : point) (i : item)
    (hi : i.is_emissive = true) (h0 : s.lum p.x p.y = 0) :
    (s.update_lum_rem p i).lum p.x p.y =
      if emitters s p = 0 then 255
      else if emitters s p ≤ 256 then emitters s p - 1
      else 0 := by
  rw [lum_update_lum_rem, scan_emissive_eq_emitters]
  simp only [hi, Bool.true_eq_false, if_false]
  have h1 : ¬ (s.lum p.x p.y ≠ 0 ∧ s.lum p.x p.y < 255) := by omega
  rw [if_neg h1]
  by_cases hc0 : emitters s p = 0
  · rw [hc0]
    simp
    exact u8_neg_one
  · rw [if_neg hc0]
    by_cases h2 : emitters s p ≤ 256
    · have h3 : (emitters s p : Int) ≤ 256 := by omega
      rw [if_pos h2, if_pos h3]
      unfold u8
      omega
    · have h3 : ¬ (emitters s p : Int) ≤ 256 := by omega
      rw [if_neg h2, if_neg h3, h0]

/-- Witness for C17: counter 0 and no emitter in `itm[p]`, the call raises the
counter to 255; counter 0 and two emitters, the counter becomes 1. -/
theorem update_lum_rem_zero_counter_witness :
    ((chunk_with 0 []).update_lum_rem ⟨0, 0⟩ ⟨true, 1⟩).lum 0 0 = 255 ∧
    ((chunk_with 0 [⟨true, 1⟩, ⟨true, 2⟩]).update_lum_rem ⟨0, 0⟩ ⟨true, 1⟩).lum 0 0 = 1 :=
  ⟨update_lum_rem_zero_counter (chunk_with 0 []) ⟨0, 0⟩ ⟨true, 1⟩ rfl rfl,
    update_lum_rem_zero_counter (chunk_with 0 [⟨true, 1⟩, ⟨true, 2⟩]) ⟨0, 0⟩ ⟨true, 1⟩ rfl rfl⟩

end Submap
